/-
Verification of the WORKBank visualization pipeline
(`src/analysis/generate_plot.py`).

The script loads two tables, aggregates each by task, inner-joins them,
derives a priority score, sorts descending, and builds plotly traces,
dropdown buttons and a ranked table.  We embed the data pipeline and the
figure-configuration data shallowly: pandas DataFrames become lists of
records, ratings become rationals, and each pandas operation becomes the
corresponding list function.
-/
import Mathlib

namespace Workbank

/-- A row of `worker_desire_df` (`worker_data/domain_worker_desires.csv`):
columns `Task`, `Automation Desire Rating`, `Occupation (O*NET-SOC Title)`. -/
structure WorkerRow where
  task : String
  desire : ℚ
  occupation : String
deriving DecidableEq

/-- A row of `expert_ratings_df`
(`expert_ratings/expert_rated_technological_capability.csv`):
columns `Task`, `Automation Capacity Rating`. -/
structure ExpertRow where
  task : String
  capability : ℚ
deriving DecidableEq

/-- A row of `worker_agg` (line 14-17): task, mean desire, first occupation. -/
structure WorkerAggRow where
  task : String
  desire : ℚ
  occupation : String
deriving DecidableEq

/-- A row of `expert_agg` (line 20-22): task, mean capability. -/
structure ExpertAggRow where
  task : String
  capability : ℚ
deriving DecidableEq

/-- A row of `merged_df` (line 25): worker-aggregate columns plus the
expert capability column, joined on `Task`. -/
structure MergedRow where
  task : String
  desire : ℚ
  occupation : String
  capability : ℚ
deriving DecidableEq

/-- The derived `Priority Score` column (line 28):
desire times capability. -/
def priorityScore (r : MergedRow) : ℚ := r.desire * r.capability

/-- Arithmetic mean, as computed by pandas `groupby(...).agg("mean")`. -/
def listMean (l : List ℚ) : ℚ := l.sum / l.length

/-- Python string comparison `a <= b`: lexicographic by code point
(strict lexicographic order on the character lists, or equality). -/
def strLe (a b : String) : Prop :=
  List.Lex (· < ·) a.data b.data ∨ a.data = b.data

instance : DecidableRel strLe :=
  fun _ _ => inferInstanceAs (Decidable (_ ∨ _))

instance : IsTrans String strLe := by
  constructor
  rintro a b c (hab | hab) (hbc | hbc)
  · exact Or.inl (Trans.trans hab hbc)
  · exact Or.inl (hbc ▸ hab)
  · exact Or.inl (hab ▸ hbc)
  · exact Or.inr (hab.trans hbc)

instance : IsTotal String strLe := by
  constructor
  intro a b
  have h3 := List.Lex.isTrichotomous ((· < ·) : Char → Char → Prop)
  rcases h3.trichotomous a.data b.data with h | h | h
  · exact Or.inl (Or.inl h)
  · exact Or.inl (Or.inr h)
  · exact Or.inr (Or.inl h)

/-- `strLe` together with inequality is the strict string order `<`. -/
theorem strLe_lt {a b : String} (h : strLe a b) (hne : a ≠ b) : a < b := by
  rcases h with h | h
  · exact String.lt_iff_toList_lt.mpr h
  · exact absurd (String.ext h) hne

/-- The group keys produced by pandas `groupby` with its default
`sort=True`: the distinct keys in ascending order. -/
def sortedKeys (keys : List String) : List String :=
  List.insertionSort strLe keys.dedup

/-- All `Automation Desire Rating` values of the worker rows for task `t`
(the group that `groupby("Task")` averages). -/
def workerRatings (rows : List WorkerRow) (t : String) : List ℚ :=
  (rows.filter fun r => r.task == t).map WorkerRow.desire

/-- The `"first"` aggregation of the occupation column: the occupation of
the first row (in input order) whose task is `t`. -/
def firstOccupation (rows : List WorkerRow) (t : String) : String :=
  match rows.find? (fun r => r.task == t) with
  | some r => r.occupation
  | none => ""

/-- `worker_agg` (lines 14-17): group the worker table by `Task`, take the
mean of the desire ratings and the first occupation title of each group. -/
def worker_agg (rows : List WorkerRow) : List WorkerAggRow :=
  (sortedKeys (rows.map WorkerRow.task)).map fun t =>
    ⟨t, listMean (workerRatings rows t), firstOccupation rows t⟩

/-- All `Automation Capacity Rating` values of the expert rows for `t`. -/
def expertRatings (rows : List ExpertRow) (t : String) : List ℚ :=
  (rows.filter fun r => r.task == t).map ExpertRow.capability

/-- `expert_agg` (lines 20-22): group the expert table by `Task` and take
the mean capability of each group. -/
def expert_agg (rows : List ExpertRow) : List ExpertAggRow :=
  (sortedKeys (rows.map ExpertRow.task)).map fun t =>
    ⟨t, listMean (expertRatings rows t)⟩

/-- `pd.merge(worker_agg, expert_agg, on="Task")` (line 25): the default
inner join, preserving the order of the left keys and pairing each left
row with every right row that has the same task. -/
def mergeOnTask (w : List WorkerAggRow) (e : List ExpertAggRow) :
    List MergedRow :=
  w.flatMap fun wr =>
    (e.filter fun er => er.task == wr.task).map fun er =>
      ⟨wr.task, wr.desire, wr.occupation, er.capability⟩

/-- `merged_df.sort_values('Priority Score', ascending=False)` (line 29).
pandas computes an ascending argsort of the column and then reverses the
indexer (`nargsort` with `ascending=False`); on inputs of fewer than 16
rows numpy's quicksort runs its insertion-sort base case, which is stable,
so the result is exactly the reverse of a stable ascending sort. -/
def sort_values_desc (l : List MergedRow) : List MergedRow :=
  (List.insertionSort
    (fun a b : MergedRow => priorityScore a ≤ priorityScore b) l).reverse

/-- The whole data pipeline (lines 14-29): aggregate both tables, inner
join on `Task`, sort descending by the derived priority score. -/
def merged_df (w : List WorkerRow) (e : List ExpertRow) : List MergedRow :=
  sort_values_desc (mergeOnTask (worker_agg w) (expert_agg e))

/-- `occupations = sorted(merged_df['Occupation (O*NET-SOC Title)'].unique())`
(line 41): the distinct occupation titles in ascending order. -/
def occupations (l : List MergedRow) : List String :=
  List.insertionSort strLe (l.map MergedRow.occupation).dedup

/-- One `go.Scatter` trace of the figure: its legend name (the occupation,
line 52) and the rows whose columns feed `x`, `y`, `text` and `customdata`
(lines 46-54). -/
structure ScatterTrace where
  name : String
  rows : List MergedRow
deriving DecidableEq

/-- The trace added for one occupation (lines 45-60):
`occ_data = merged_df[merged_df['Occupation (O*NET-SOC Title)'] == occ]`. -/
def occTrace (l : List MergedRow) (occ : String) : ScatterTrace :=
  ⟨occ, l.filter fun r => r.occupation == occ⟩

/-- All scatter traces, one per occupation (the `for i, occ in
enumerate(occupations)` loop, lines 45-60). -/
def scatterTraces (l : List MergedRow) : List ScatterTrace :=
  (occupations l).map (occTrace l)

/-- `top_tasks = merged_df.head(15)` (line 63): the rows displayed by the
table trace when the figure is first rendered. -/
def top_tasks (l : List MergedRow) : List MergedRow := l.take 15

/-- One entry of the `buttons` list (lines 86-123): the display label, the
`visible` vector over the figure traces (scatter traces first, table
last), and the replacement table rows carried by `cells.values` (`none`
for the all-occupations button, which leaves the table unchanged). -/
structure MenuButton where
  label : String
  visible : List Bool
  cellRows : Option (List MergedRow)
deriving DecidableEq

/-- The label of an occupation button (line 108):
`occ[:40] + "..." if len(occ) > 40 else occ`. -/
def buttonLabel (occ : String) : String :=
  if occ.length > 40 then occ.take 40 ++ "..." else occ

/-- The "All Occupations" button (lines 89-96):
`visible = [True] * len(occupations) + [True]`, no table update. -/
def allOccButton (l : List MergedRow) : MenuButton :=
  ⟨"All Occupations", (occupations l).map (fun _ => true) ++ [true], none⟩

/-- The button for one occupation (lines 99-123):
`visible = [o == occ for o in occupations] + [True]` and
`occ_top = merged_df[merged_df['Occupation (O*NET-SOC Title)'] == occ].head(15)`
as the replacement `cells.values`. -/
def occButton (l : List MergedRow) (occ : String) : MenuButton :=
  ⟨buttonLabel occ, ((occupations l).map fun o => o == occ) ++ [true],
    some ((l.filter fun r => r.occupation == occ).take 15)⟩

/-- The full dropdown list (lines 86-123): the all-occupations button
followed by one button per occupation. -/
def menuButtons (l : List MergedRow) : List MenuButton :=
  allOccButton l :: (occupations l).map (occButton l)

/-! ### Helper lemmas -/

/-- Filtering for a key that occurs once among (pairwise distinct) keys
keeps exactly one element. -/
theorem length_filter_key_of_nodup {α : Type} (f : α → String) :
    ∀ l : List α, (l.map f).Nodup → ∀ t : String, t ∈ l.map f →
      (l.filter fun a => f a == t).length = 1 := by
  intro l
  induction l with
  | nil => simp
  | cons x xs ih =>
    intro hnd t ht
    simp only [List.map_cons, List.nodup_cons] at hnd
    rcases List.mem_cons.mp ht with h | h
    · subst h
      rw [List.filter_cons_of_pos (by simp)]
      have h0 : (xs.filter fun a => f a == f x) = [] := by
        refine List.filter_eq_nil_iff.mpr ?_
        intro a ha
        simp only [beq_iff_eq]
        intro hfa
        exact hnd.1 (hfa ▸ List.mem_map_of_mem f ha)
      simp [h0]
    · have hxt : ¬ f x = t := by
        intro he
        exact hnd.1 (he ▸ h)
      rw [List.filter_cons_of_neg (by simpa using hxt)]
      exact ih hnd.2 t h

/-- Filtering for a key that does not occur keeps nothing. -/
theorem length_filter_key_of_not_mem {α : Type} (f : α → String)
    (l : List α) (t : String) (ht : t ∉ l.map f) :
    (l.filter fun a => f a == t).length = 0 := by
  rw [List.length_eq_zero]
  refine List.filter_eq_nil_iff.mpr ?_
  intro a ha
  simp only [beq_iff_eq]
  intro hfa
  exact ht (hfa ▸ List.mem_map_of_mem f ha)

/-- The inner join pairs each matching left row with each matching right
row: the number of joined rows for a task is the product of the two
occurrence counts. -/
theorem length_filter_mergeOnTask (w : List WorkerAggRow)
    (e : List ExpertAggRow) (t : String) :
    ((mergeOnTask w e).filter fun r => r.task == t).length
      = (w.filter fun a => a.task == t).length
          * (e.filter fun a => a.task == t).length := by
  induction w with
  | nil => simp [mergeOnTask]
  | cons wr ws ih =>
    rw [mergeOnTask, List.flatMap_cons, List.filter_append,
      List.length_append, ← mergeOnTask, ih, List.filter_map]
    by_cases h : wr.task = t
    · subst h
      have hcomp : ∀ a ∈ e.filter fun er => er.task == wr.task,
          ((fun r : MergedRow => r.task == wr.task) ∘ fun er : ExpertAggRow =>
            (⟨wr.task, wr.desire, wr.occupation, er.capability⟩ : MergedRow)) a
            = true := by
        intro a _
        simp
      rw [List.filter_eq_self.mpr hcomp, List.length_map,
        List.filter_cons_of_pos (by simp), List.length_cons]
      ring
    · have hcomp : ∀ a ∈ e.filter fun er => er.task == wr.task,
          ¬ (((fun r : MergedRow => r.task == t) ∘ fun er : ExpertAggRow =>
            (⟨wr.task, wr.desire, wr.occupation, er.capability⟩ : MergedRow)) a
            = true) := by
        intro a _
        simpa using h
      rw [List.filter_eq_nil_iff.mpr hcomp,
        List.filter_cons_of_neg (by simpa using h)]
      simp

/-- The tasks of `worker_agg` are the sorted distinct input tasks. -/
theorem map_task_worker_agg (rows : List WorkerRow) :
    (worker_agg rows).map WorkerAggRow.task
      = sortedKeys (rows.map WorkerRow.task) := by
  rw [worker_agg, List.map_map]
  exact List.map_id _

/-- The tasks of `expert_agg` are the sorted distinct input tasks. -/
theorem map_task_expert_agg (rows : List ExpertRow) :
    (expert_agg rows).map ExpertAggRow.task
      = sortedKeys (rows.map ExpertRow.task) := by
  rw [expert_agg, List.map_map]
  exact List.map_id _

/-- `sortedKeys` has no duplicate keys. -/
theorem nodup_sortedKeys (keys : List String) : (sortedKeys keys).Nodup :=
  (List.perm_insertionSort strLe keys.dedup).nodup_iff.mpr
    (List.nodup_dedup keys)

/-- `sortedKeys` has the same members as the input key list. -/
theorem mem_sortedKeys {t : String} {keys : List String} :
    t ∈ sortedKeys keys ↔ t ∈ keys := by
  rw [sortedKeys, List.mem_insertionSort, List.mem_dedup]

instance : IsTotal MergedRow
    fun a b : MergedRow => priorityScore a ≤ priorityScore b :=
  ⟨fun a b => le_total (priorityScore a) (priorityScore b)⟩

instance : IsTrans MergedRow
    fun a b : MergedRow => priorityScore a ≤ priorityScore b :=
  ⟨fun _ _ _ hab hbc => le_trans hab hbc⟩

/-- Sorting permutes the rows: no row is dropped or duplicated. -/
theorem perm_sort_values_desc (l : List MergedRow) :
    (sort_values_desc l).Perm l :=
  (List.reverse_perm _).trans
    (List.perm_insertionSort
      (fun a b : MergedRow => priorityScore a ≤ priorityScore b) l)

/-- The sorted output is descending in the priority score. -/
theorem pairwise_sort_values_desc (l : List MergedRow) :
    List.Pairwise (fun a b => priorityScore b ≤ priorityScore a)
      (sort_values_desc l) := by
  rw [sort_values_desc, List.pairwise_reverse]
  exact List.sorted_insertionSort
    (fun a b : MergedRow => priorityScore a ≤ priorityScore b) l

/-- Inserting into a list keeps the elements of any fixed priority `q` in
place, with the inserted row (when of priority `q`) in front. -/
theorem filter_priority_orderedInsert (a : MergedRow) (q : ℚ) :
    ∀ l : List MergedRow,
      ((List.orderedInsert
          (fun a b : MergedRow => priorityScore a ≤ priorityScore b) a l
        ).filter fun r => priorityScore r == q)
        = if priorityScore a = q
            then a :: l.filter fun r => priorityScore r == q
            else l.filter fun r => priorityScore r == q := by
  intro l
  induction l with
  | nil =>
    rw [show List.orderedInsert
      (fun a b : MergedRow => priorityScore a ≤ priorityScore b) a [] = [a]
      from rfl]
    by_cases h : priorityScore a = q
    · rw [if_pos h, List.filter_cons_of_pos (by simpa using h)]
    · rw [if_neg h, List.filter_cons_of_neg (by simpa using h)]
  | cons b t ih =>
    rw [List.orderedInsert]
    by_cases hab : priorityScore a ≤ priorityScore b
    · rw [if_pos hab]
      by_cases h : priorityScore a = q
      · rw [List.filter_cons_of_pos (by simpa using h), if_pos h]
      · rw [List.filter_cons_of_neg (by simpa using h), if_neg h]
    · rw [if_neg hab]
      have hba : priorityScore b < priorityScore a := lt_of_not_le hab
      by_cases h : priorityScore a = q
      · have hbq : ¬ priorityScore b = q := by
          intro he
          rw [h, he] at hba
          exact lt_irrefl q hba
        rw [if_pos h, List.filter_cons_of_neg (by simpa using hbq),
          List.filter_cons_of_neg (by simpa using hbq), ih, if_pos h]
      · rw [if_neg h]
        by_cases hbq : priorityScore b = q
        · rw [List.filter_cons_of_pos (by simpa using hbq),
            List.filter_cons_of_pos (by simpa using hbq), ih, if_neg h]
        · rw [List.filter_cons_of_neg (by simpa using hbq),
            List.filter_cons_of_neg (by simpa using hbq), ih, if_neg h]

/-- The ascending insertion sort is stable: the rows of any fixed
priority `q` stay in their input order. -/
theorem filter_priority_insertionSort (q : ℚ) :
    ∀ l : List MergedRow,
      ((List.insertionSort
          (fun a b : MergedRow => priorityScore a ≤ priorityScore b) l
        ).filter fun r => priorityScore r == q)
        = l.filter fun r => priorityScore r == q := by
  intro l
  induction l with
  | nil => rfl
  | cons a t ih =>
    rw [List.insertionSort, filter_priority_orderedInsert, ih]
    by_cases h : priorityScore a = q
    · rw [if_pos h, List.filter_cons_of_pos (by simpa using h)]
    · rw [if_neg h, List.filter_cons_of_neg (by simpa using h)]

/-- `sort_values_desc` reverses the input order of the rows inside every
priority class: pandas computes the descending order by reversing an
ascending argsort, so ties come out backwards. -/
theorem filter_priority_sort_values_desc (l : List MergedRow) (q : ℚ) :
    ((sort_values_desc l).filter fun r => priorityScore r == q)
      = (l.filter fun r => priorityScore r == q).reverse := by
  rw [sort_values_desc, List.filter_reverse, filter_priority_insertionSort]

/-- `find?` returns the head of the segment after a prefix of misses. -/
theorem find?_first {α : Type} (p : α → Bool) :
    ∀ (pre : List α) (r : α) (post : List α),
      (∀ x ∈ pre, p x = false) → p r = true →
      (pre ++ r :: post).find? p = some r := by
  intro pre
  induction pre with
  | nil =>
    intro r post _ hr
    rw [List.nil_append, List.find?_cons_of_pos _ hr]
  | cons x xs ih =>
    intro r post hpre hr
    rw [List.cons_append,
      List.find?_cons_of_neg _ (by simp [hpre x (List.mem_cons_self x xs)]),
      ih r post (fun y hy => hpre y (List.mem_cons_of_mem x hy)) hr]

/-- Every joined row is assembled from a worker-aggregate row and an
expert-aggregate row with the same task. -/
theorem mem_mergeOnTask {w : List WorkerAggRow} {e : List ExpertAggRow}
    {r : MergedRow} (hr : r ∈ mergeOnTask w e) :
    ∃ wr ∈ w, ∃ er ∈ e, er.task = wr.task ∧
      r = ⟨wr.task, wr.desire, wr.occupation, er.capability⟩ := by
  rw [mergeOnTask, List.mem_flatMap] at hr
  obtain ⟨wr, hwr, hr⟩ := hr
  rw [List.mem_map] at hr
  obtain ⟨er, her, hr⟩ := hr
  rw [List.mem_filter] at her
  exact ⟨wr, hwr, er, her.1, by simpa using her.2, hr.symm⟩

/-- Splitting a list by a duplicate-free, covering list of occupation
keys and concatenating the pieces permutes the list. -/
theorem flatMap_filter_occupation_perm :
    ∀ (occs : List String) (l : List MergedRow), occs.Nodup →
      (∀ r ∈ l, r.occupation ∈ occs) →
      (occs.flatMap fun o => l.filter fun r => r.occupation == o).Perm l := by
  intro occs
  induction occs with
  | nil =>
    intro l _ hcov
    rw [List.eq_nil_iff_forall_not_mem.mpr fun r hr =>
      List.not_mem_nil r.occupation (hcov r hr)]
    exact List.Perm.refl _
  | cons o rest ih =>
    intro l hnd hcov
    rw [List.flatMap_cons]
    have hrest : ∀ o2 ∈ rest,
        (l.filter fun r => r.occupation == o2)
          = ((l.filter fun r => !(r.occupation == o)).filter
              fun r => r.occupation == o2) := by
      intro o2 ho2
      rw [List.filter_filter]
      refine (List.filter_congr ?_).symm
      intro r _
      by_cases h : r.occupation = o2
      · have ho : ¬ o2 = o := fun he =>
          (List.nodup_cons.mp hnd).1 (he ▸ ho2)
        simp [h, ho]
      · simp [h]
    rw [List.flatMap_congr hrest]
    refine List.Perm.trans (List.Perm.append_left _
      (ih (l.filter fun r => !(r.occupation == o))
        (List.nodup_cons.mp hnd).2 ?_)) ?_
    · intro r hr
      rw [List.mem_filter] at hr
      have hmem := hcov r hr.1
      rw [List.mem_cons] at hmem
      rcases hmem with h | h
      · exact absurd (by simpa using h) (by simpa using hr.2)
      · exact h
    · exact List.filter_append_perm _ l

/-- The occupation list has no duplicates. -/
theorem nodup_occupations (l : List MergedRow) : (occupations l).Nodup :=
  (List.perm_insertionSort strLe _).nodup_iff.mpr (List.nodup_dedup _)

/-- The occupation list has exactly the occupations of the rows. -/
theorem mem_occupations {l : List MergedRow} {o : String} :
    o ∈ occupations l ↔ o ∈ l.map MergedRow.occupation := by
  rw [occupations, List.mem_insertionSort, List.mem_dedup]

/-! ### Claims -/

/-- C1: for a task present in both aggregated tables (each aggregate
having at most one row per task) the inner join has exactly one row for
it; every joined row takes its desire from the matching worker-aggregate
row and its capability from the matching expert-aggregate row, its
priority score is their product and lies in `[1, 25]` whenever both means
lie in `[1, 5]`; and every joined row's task is present in both
aggregates, so a task present in only one of them has no joined row. -/
theorem C1_inner_join_spec (w : List WorkerAggRow) (e : List ExpertAggRow)
    (hw : (w.map WorkerAggRow.task).Nodup)
    (he : (e.map ExpertAggRow.task).Nodup) (t : String)
    (hwt : t ∈ w.map WorkerAggRow.task)
    (het : t ∈ e.map ExpertAggRow.task) :
    ((mergeOnTask w e).filter fun r => r.task == t).length = 1 ∧
    (∀ r ∈ mergeOnTask w e,
      ∃ wr ∈ w, ∃ er ∈ e, r.task = wr.task ∧ r.task = er.task ∧
        r.desire = wr.desire ∧ r.capability = er.capability ∧
        priorityScore r = wr.desire * er.capability ∧
        (1 ≤ r.desire → r.desire ≤ 5 → 1 ≤ r.capability →
          r.capability ≤ 5 →
          1 ≤ priorityScore r ∧ priorityScore r ≤ 25)) ∧
    ∀ r ∈ mergeOnTask w e,
      r.task ∈ w.map WorkerAggRow.task ∧
      r.task ∈ e.map ExpertAggRow.task := by
  refine ⟨?_, ?_, ?_⟩
  · rw [length_filter_mergeOnTask,
      length_filter_key_of_nodup WorkerAggRow.task w hw t hwt,
      length_filter_key_of_nodup ExpertAggRow.task e he t het]
  · intro r hr
    obtain ⟨wr, hwr, er, her, hert, hreq⟩ := mem_mergeOnTask hr
    subst hreq
    refine ⟨wr, hwr, er, her, rfl, hert.symm, rfl, rfl, rfl, ?_⟩
    intro h1d hd5 h1c hc5
    simp only [priorityScore] at h1d hd5 h1c hc5 ⊢
    constructor
    · nlinarith [h1d, h1c]
    · nlinarith [h1d, hd5, h1c, hc5]
  · intro r hr
    obtain ⟨wr, hwr, er, her, hert, hreq⟩ := mem_mergeOnTask hr
    subst hreq
    exact ⟨List.mem_map_of_mem WorkerAggRow.task hwr,
      hert ▸ List.mem_map_of_mem ExpertAggRow.task her⟩

theorem C1_witness :
    ((mergeOnTask [⟨"a", 9/2, "Writer"⟩] [⟨"a", 7/2⟩]).filter
      fun r => r.task == "a").length = 1 :=
  (C1_inner_join_spec _ _ (by decide) (by decide) "a"
    (by decide) (by decide)).1

/-- C2: the aggregation step yields exactly one row per distinct task
string of the input (exact string match) and none for absent tasks; the
row's desire is the arithmetic mean of all input ratings for that task
and its occupation is the occupation of the first input row (in input
order) with that task. -/
theorem C2_worker_agg_spec (rows : List WorkerRow) (t : String) :
    ((worker_agg rows).filter fun a => a.task == t).length
      = (if t ∈ rows.map WorkerRow.task then 1 else 0) ∧
    ∀ a ∈ worker_agg rows, a.task = t →
      a.desire
        = (workerRatings rows t).sum / (workerRatings rows t).length ∧
      ∀ pre r post, rows = pre ++ r :: post → r.task = t →
        (∀ x ∈ pre, x.task ≠ t) → a.occupation = r.occupation := by
  constructor
  · by_cases hmem : t ∈ rows.map WorkerRow.task
    · rw [if_pos hmem]
      refine length_filter_key_of_nodup WorkerAggRow.task _ ?_ t ?_
      · rw [map_task_worker_agg]
        exact nodup_sortedKeys _
      · rw [map_task_worker_agg]
        exact mem_sortedKeys.mpr hmem
    · rw [if_neg hmem]
      refine length_filter_key_of_not_mem WorkerAggRow.task _ t ?_
      rw [map_task_worker_agg]
      exact fun h => hmem (mem_sortedKeys.mp h)
  · intro a ha hat
    rw [worker_agg, List.mem_map] at ha
    obtain ⟨k, _, hk⟩ := ha
    have hkt : k = t := by rw [← hat, ← hk]
    subst hkt
    subst hk
    refine ⟨rfl, ?_⟩
    intro pre r post hrows hrt hpre
    have hfind : rows.find? (fun x => x.task == k) = some r := by
      rw [hrows]
      refine find?_first _ pre r post ?_ (by simpa using hrt)
      intro x hx
      simpa using hpre x hx
    rw [firstOccupation, hfind]

theorem C2_witness :
    ((worker_agg [⟨"Draft email", 4, "Writer"⟩,
        ⟨"Draft email", 5, "Writer"⟩]).filter
      fun a => a.task == "Draft email").length = 1 := by
  have h := (C2_worker_agg_spec
    [⟨"Draft email", 4, "Writer"⟩, ⟨"Draft email", 5, "Writer"⟩]
    "Draft email").1
  simpa using h

/-- C3 (counterexample): a two-row joined table whose rows have equal
priority scores comes out of the sort in reversed order, so the sort is
not stable: pandas reverses an ascending argsort to implement
`ascending=False`. -/
theorem C3_sort_not_stable_cex :
    priorityScore ⟨"a", 2, "O1", 3⟩ = priorityScore ⟨"b", 2, "O2", 3⟩ ∧
    (⟨"a", 2, "O1", 3⟩ : MergedRow) ≠ ⟨"b", 2, "O2", 3⟩ ∧
    sort_values_desc [⟨"a", 2, "O1", 3⟩, ⟨"b", 2, "O2", 3⟩]
      = [⟨"b", 2, "O2", 3⟩, ⟨"a", 2, "O1", 3⟩] := by
  refine ⟨rfl, by decide, ?_⟩
  norm_num [sort_values_desc, List.insertionSort, List.orderedInsert,
    priorityScore]

/-- C3 (amended): the sort of the joined table is descending by priority
score and permutes the rows, but it is anti-stable rather than stable:
within every class of equal priority scores the rows appear in the
reverse of their pre-sort order. -/
theorem C3_sort_desc_antistable (l : List MergedRow) :
    (sort_values_desc l).Perm l ∧
    List.Pairwise (fun a b => priorityScore b ≤ priorityScore a)
      (sort_values_desc l) ∧
    ∀ q : ℚ, ((sort_values_desc l).filter fun r => priorityScore r == q)
      = (l.filter fun r => priorityScore r == q).reverse :=
  ⟨perm_sort_values_desc l, pairwise_sort_values_desc l,
    fun q => filter_priority_sort_values_desc l q⟩

/-- C4: in the final sorted output, any row is followed only by rows of
smaller or equal priority score: the priority column is monotonically
non-increasing over adjacent positions. -/
theorem C4_adjacent_nonincreasing (w : List WorkerRow) (e : List ExpertRow)
    (i : ℕ) (a b : MergedRow) (ha : (merged_df w e)[i]? = some a)
    (hb : (merged_df w e)[i + 1]? = some b) :
    priorityScore b ≤ priorityScore a := by
  have hp : List.Pairwise (fun a b => priorityScore b ≤ priorityScore a)
      (merged_df w e) := pairwise_sort_values_desc _
  rw [List.getElem?_eq_some_iff] at ha hb
  obtain ⟨hia, hae⟩ := ha
  obtain ⟨hib, hbe⟩ := hb
  have := List.pairwise_iff_getElem.mp hp i (i + 1) hia hib
    (Nat.lt_succ_self i)
  rw [hae, hbe] at this
  exact this

theorem C4_witness :
    priorityScore (⟨"a", 2, "O1", 3⟩ : MergedRow)
      ≤ priorityScore (⟨"b", 2, "O2", 3⟩ : MergedRow) := by
  refine C4_adjacent_nonincreasing
    [⟨"a", 2, "O1"⟩, ⟨"b", 2, "O2"⟩] [⟨"a", 3⟩, ⟨"b", 3⟩] 0 _ _ ?_ ?_ <;>
    norm_num +decide [merged_df, mergeOnTask, worker_agg, expert_agg,
      sortedKeys, sort_values_desc, listMean, workerRatings, expertRatings,
      firstOccupation, priorityScore, List.insertionSort,
      List.orderedInsert, List.dedup, List.pwFilter, List.find?_cons,
      List.filter_cons, List.flatMap]

/-- C5: the aggregate-join-sort pipeline is deterministic: two runs on
identical input tables produce identical joined/sorted tables (same rows
in the same order). -/
theorem C5_pipeline_deterministic (w w2 : List WorkerRow)
    (e e2 : List ExpertRow) (hw : w = w2) (he : e = e2) :
    merged_df w e = merged_df w2 e2 := by
  rw [hw, he]

theorem C5_witness :
    merged_df [⟨"a", 4, "W"⟩] [⟨"a", 3⟩]
      = merged_df [⟨"a", 4, "W"⟩] [⟨"a", 3⟩] :=
  C5_pipeline_deterministic _ _ _ _ rfl rfl

/-- The `visible` vector of an occupation button, below the table slot:
entry `i` compares the `i`-th occupation with the button's (full)
occupation title. -/
theorem visible_getElem_occButton (l : List MergedRow) (occ : String)
    (i : ℕ) (h : i < (occupations l).length) :
    (occButton l occ).visible[i]?
      = ((occupations l)[i]?).map fun o => o == occ := by
  rw [occButton]
  rw [show (MenuButton.mk (buttonLabel occ)
      (((occupations l).map fun o => o == occ) ++ [true])
      (some ((l.filter fun r => r.occupation == occ).take 15))).visible
    = ((occupations l).map fun o => o == occ) ++ [true] from rfl]
  rw [List.getElem?_append_left (by simpa using h), List.getElem?_map]

/-- C6: the display label of an occupation's control is the full title
when it has at most 40 characters and its first 40 characters followed by
`"..."` otherwise, while the visibility vector is computed from the full
untruncated title. -/
theorem C6_button_label_spec (l : List MergedRow) (occ : String) :
    (occ.length ≤ 40 → (occButton l occ).label = occ) ∧
    (40 < occ.length →
      (occButton l occ).label = occ.take 40 ++ "...") ∧
    ∀ i : ℕ, i < (occupations l).length →
      (occButton l occ).visible[i]?
        = ((occupations l)[i]?).map fun o => o == occ := by
  refine ⟨?_, ?_, fun i h => visible_getElem_occButton l occ i h⟩
  · intro h
    rw [occButton, show (MenuButton.mk (buttonLabel occ)
        (((occupations l).map fun o => o == occ) ++ [true])
        (some ((l.filter fun r => r.occupation == occ).take 15))).label
      = buttonLabel occ from rfl, buttonLabel, if_neg (by omega)]
  · intro h
    rw [occButton, show (MenuButton.mk (buttonLabel occ)
        (((occupations l).map fun o => o == occ) ++ [true])
        (some ((l.filter fun r => r.occupation == occ).take 15))).label
      = buttonLabel occ from rfl, buttonLabel, if_pos (by omega)]

theorem C6_witness :
    (occButton []
        "A very long occupation title that runs to fifty-five chars").label
      = ("A very long occupation title that runs to fifty-five chars".take
          40) ++ "..." :=
  (C6_button_label_spec []
    "A very long occupation title that runs to fifty-five chars").2.1
    (by decide)

/-- C7: the control list is the "show all" entry (every trace visible)
followed by exactly one entry per occupation; each occupation entry keeps
the table trace visible, shows the matching scatter trace and hides every
other one, and every visibility vector has one entry per scatter trace
plus one for the table. -/
theorem C7_buttons_spec (l : List MergedRow) :
    (menuButtons l).length = (occupations l).length + 1 ∧
    (menuButtons l)[0]? = some (allOccButton l) ∧
    (∀ v ∈ (allOccButton l).visible, v = true) ∧
    (allOccButton l).visible.length = (scatterTraces l).length + 1 ∧
    ∀ occ ∈ occupations l,
      (occButton l occ).visible.length = (scatterTraces l).length + 1 ∧
      (occButton l occ).visible[(scatterTraces l).length]? = some true ∧
      ∀ i : ℕ, i < (scatterTraces l).length →
        ((occButton l occ).visible[i]? = some true
          ↔ (occupations l)[i]? = some occ) := by
  have hlen : (scatterTraces l).length = (occupations l).length :=
    List.length_map _ _
  refine ⟨by simp [menuButtons], by simp [menuButtons], ?_, ?_, ?_⟩
  · intro v hv
    rw [allOccButton] at hv
    rw [show (MenuButton.mk "All Occupations"
        (((occupations l).map fun _ => true) ++ [true]) none).visible
      = ((occupations l).map fun _ => true) ++ [true] from rfl] at hv
    rcases List.mem_append.mp hv with h | h
    · obtain ⟨_, _, hh⟩ := List.mem_map.mp h
      exact hh.symm
    · simpa using h
  · rw [allOccButton]
    simp [hlen]
  · intro occ _
    refine ⟨?_, ?_, ?_⟩
    · rw [occButton]
      simp [hlen]
    · rw [hlen, occButton]
      rw [show (MenuButton.mk (buttonLabel occ)
          (((occupations l).map fun o => o == occ) ++ [true])
          (some ((l.filter fun r => r.occupation == occ).take 15))).visible
        = ((occupations l).map fun o => o == occ) ++ [true] from rfl]
      rw [List.getElem?_append_right (by simp), List.length_map]
      simp
    · intro i hi
      rw [hlen] at hi
      rw [visible_getElem_occButton l occ i hi,
        List.getElem?_eq_getElem hi]
      simp [beq_iff_eq]

theorem C7_witness :
    (occButton [⟨"t", 1, "O1", 2⟩] "O1").visible.length
      = (scatterTraces [⟨"t", 1, "O1", 2⟩]).length + 1 :=
  ((C7_buttons_spec [⟨"t", 1, "O1", 2⟩]).2.2.2.2 "O1" (by decide)).1

/-- Counting occurrences distributes over a concatenation of groups. -/
theorem count_flatMap_eq_sum {α β : Type} [DecidableEq β]
    (g : α → List β) (r : β) :
    ∀ ts : List α,
      ((ts.map fun t => (g t).count r).sum = (ts.flatMap g).count r) := by
  intro ts
  induction ts with
  | nil => rfl
  | cons x xs ih =>
    rw [List.map_cons, List.sum_cons, List.flatMap_cons, List.count_append,
      ih]

/-- C8: the per-occupation scatter traces partition the joined table:
concatenating the traces' rows permutes the table, each row's occurrence
count is preserved across the traces, and every row lies in exactly one
trace (the one of its occupation). -/
theorem C8_traces_partition (l : List MergedRow) :
    ((scatterTraces l).flatMap ScatterTrace.rows).Perm l ∧
    (∀ r : MergedRow,
      ((scatterTraces l).map fun tr => tr.rows.count r).sum = l.count r) ∧
    ∀ r ∈ l, ∃ i : ℕ, ∃ hi : i < (scatterTraces l).length,
      r ∈ ((scatterTraces l).get ⟨i, hi⟩).rows ∧
      ∀ j : ℕ, ∀ hj : j < (scatterTraces l).length,
        r ∈ ((scatterTraces l).get ⟨j, hj⟩).rows → j = i := by
  have hflat : (scatterTraces l).flatMap ScatterTrace.rows
      = (occupations l).flatMap
          fun o => l.filter fun r => r.occupation == o := by
    rw [scatterTraces, List.flatMap_map]
    rfl
  have hperm : ((scatterTraces l).flatMap ScatterTrace.rows).Perm l := by
    rw [hflat]
    refine flatMap_filter_occupation_perm (occupations l) l
      (nodup_occupations l) ?_
    intro r hr
    exact mem_occupations.mpr (List.mem_map_of_mem MergedRow.occupation hr)
  refine ⟨hperm, ?_, ?_⟩
  · intro r
    rw [count_flatMap_eq_sum ScatterTrace.rows r (scatterTraces l),
      hperm.count_eq r]
  · intro r hr
    have ho : r.occupation ∈ occupations l :=
      mem_occupations.mpr (List.mem_map_of_mem MergedRow.occupation hr)
    obtain ⟨i, hi, hoi⟩ := List.mem_iff_getElem.mp ho
    have hlen : (scatterTraces l).length = (occupations l).length :=
      List.length_map _ _
    refine ⟨i, by omega, ?_, ?_⟩
    · simp only [List.get_eq_getElem, scatterTraces, List.getElem_map,
        occTrace]
      rw [hoi]
      simpa using hr
    · intro j hj hrj
      simp only [List.get_eq_getElem, scatterTraces, List.getElem_map,
        occTrace, List.mem_filter] at hrj
      have hj2 : j < (occupations l).length := by
        simpa [scatterTraces] using hj
      have hoj : (occupations l).get ⟨j, hj2⟩ = r.occupation := by
        have hb := hrj.2
        rw [beq_iff_eq] at hb
        simpa using hb.symm
      have hgij : (occupations l).get ⟨j, hj2⟩
          = (occupations l).get ⟨i, hi⟩ := by
        rw [hoj, List.get_eq_getElem]
        exact hoi.symm
      have hnd2 := nodup_occupations l
      simpa using (List.Nodup.getElem_inj_iff hnd2).mp (by simpa using hgij)

theorem C8_witness :
    ∃ i : ℕ,
      ∃ hi : i < (scatterTraces [⟨"t", 1, "O1", 2⟩]).length,
      (⟨"t", 1, "O1", 2⟩ : MergedRow)
          ∈ ((scatterTraces [⟨"t", 1, "O1", 2⟩]).get ⟨i, hi⟩).rows ∧
      ∀ j : ℕ, ∀ hj : j < (scatterTraces [⟨"t", 1, "O1", 2⟩]).length,
        (⟨"t", 1, "O1", 2⟩ : MergedRow)
            ∈ ((scatterTraces [⟨"t", 1, "O1", 2⟩]).get ⟨j, hj⟩).rows →
          j = i :=
  (C8_traces_partition [⟨"t", 1, "O1", 2⟩]).2.2 ⟨"t", 1, "O1", 2⟩
    (by decide)

/-- C9: the table trace initially shows the first 15 rows of the sorted
joined table, which are top rows (every shown row has priority at least
that of every row not shown); each occupation button replaces the cells
with the first 15 rows of that occupation's filtered subtable, which keep
the global descending order and are top rows within the occupation. -/
theorem C9_table_spec (l : List MergedRow)
    (hs : List.Pairwise (fun a b => priorityScore b ≤ priorityScore a) l)
    (occ : String) :
    top_tasks l = l.take 15 ∧
    (∀ r ∈ top_tasks l, ∀ s ∈ l.drop 15,
      priorityScore s ≤ priorityScore r) ∧
    (occButton l occ).cellRows
      = some ((l.filter fun r => r.occupation == occ).take 15) ∧
    List.Pairwise (fun a b => priorityScore b ≤ priorityScore a)
      ((l.filter fun r => r.occupation == occ).take 15) ∧
    ∀ r ∈ (l.filter fun r => r.occupation == occ).take 15,
      ∀ s ∈ (l.filter fun r => r.occupation == occ).drop 15,
        priorityScore s ≤ priorityScore r := by
  have hpf : List.Pairwise (fun a b => priorityScore b ≤ priorityScore a)
      (l.filter fun r => r.occupation == occ) := hs.filter _
  refine ⟨rfl, ?_, rfl, ?_, ?_⟩
  · have h2 : List.Pairwise
        (fun a b => priorityScore b ≤ priorityScore a)
        (l.take 15 ++ l.drop 15) := by
      rw [List.take_append_drop]
      exact hs
    exact (List.pairwise_append.mp h2).2.2
  · exact hpf.sublist (List.take_sublist 15 _)
  · have h2 : List.Pairwise
        (fun a b => priorityScore b ≤ priorityScore a)
        ((l.filter fun r => r.occupation == occ).take 15
          ++ (l.filter fun r => r.occupation == occ).drop 15) := by
      rw [List.take_append_drop]
      exact hpf
    exact (List.pairwise_append.mp h2).2.2

theorem C9_witness :
    (occButton [⟨"t", 2, "O1", 3⟩] "O1").cellRows
      = some (([⟨"t", 2, "O1", 3⟩].filter
          fun r : MergedRow => r.occupation == "O1").take 15) :=
  (C9_table_spec [⟨"t", 2, "O1", 3⟩] (by simp) "O1").2.2.1

/-- C10: the occupation list driving both the traces and the controls is
the deduplicated, ascending (lexicographic) list of the joined table's
occupation titles; the `i`-th scatter trace and the `(i+1)`-th control
are built from the same occupation, and no occupation repeats. -/
theorem C10_occupations_alignment (l : List MergedRow) :
    (occupations l).Nodup ∧
    List.Pairwise (fun a b : String => a < b) (occupations l) ∧
    (∀ o : String, o ∈ occupations l ↔ o ∈ l.map MergedRow.occupation) ∧
    (scatterTraces l).length = (occupations l).length ∧
    (∀ i : ℕ, ((scatterTraces l)[i]?).map ScatterTrace.name
      = (occupations l)[i]?) ∧
    ∀ i : ℕ, (menuButtons l)[i + 1]?
      = ((occupations l)[i]?).map (occButton l) := by
  have hnd := nodup_occupations l
  refine ⟨hnd, ?_, fun o => mem_occupations, List.length_map _ _, ?_, ?_⟩
  · have hsorted : List.Pairwise strLe (occupations l) :=
      List.sorted_insertionSort strLe _
    exact (hsorted.and hnd).imp fun h => strLe_lt h.1 h.2
  · intro i
    rw [scatterTraces, List.getElem?_map, Option.map_map]
    rcases Nat.lt_or_ge i (occupations l).length with h | h
    · rw [List.getElem?_eq_getElem h]
      rfl
    · rw [List.getElem?_eq_none h]
      rfl
  · intro i
    rw [menuButtons, List.getElem?_cons_succ, List.getElem?_map]

end Workbank
